import Mathlib

/- Shallow embedding of the nbgitpuller-downloader-plugins archive-to-git
staging pipeline: plugin_helper.py (process runner, URL sanitization, format
inference, junk filtering, pipeline orchestration) and the Google Drive
downloader module (confirm-token handshake, content-disposition parsing). -/

namespace NbgitpullerPlugins

/-- Python exceptions the embedded code can raise. ValueError carries its
original cause, as in raise ValueError(ex). -/
inductive PyExc where
  | calledProcessError (ret : Int) (cmd : List String)
  | indexError
  | generic (msg : String)
  | valueError (cause : PyExc)
  deriving DecidableEq, Repr

/-- Python string.punctuation: the ASCII characters removed by the URL
sanitizer in HandleFilesHelper.__init__ (codes 33-47, 58-64, 91-96, 123-126). -/
def pythonPunctuation : List Char :=
  ((List.range 128).filter (fun n =>
    (33 ≤ n && n ≤ 47) || (58 ≤ n && n ≤ 64) ||
    (91 ≤ n && n ≤ 96) || (123 ≤ n && n ≤ 126))).map Char.ofNat

/-- git_url.translate(str.maketrans(..., string.punctuation)): delete every
punctuation character from the URL. -/
def stripPunctuation (s : String) : String :=
  String.mk (s.data.filter (fun c => !(pythonPunctuation.contains c)))

/-- CACHED_ORIGIN_NON_GIT_REPO from plugin_helper.py. -/
def CACHED_ORIGIN_NON_GIT_REPO : String := ".nbgitpuller/targets/"

/-- self.local_origin_repo as computed in HandleFilesHelper.__init__:
repo_parent_dir + cache root + content_provider + "/" + sanitized url + "/". -/
def localOriginRepo (repoParentDir contentProvider gitUrl : String) : String :=
  repoParentDir ++ CACHED_ORIGIN_NON_GIT_REPO ++ contentProvider ++ "/" ++
    stripPunctuation gitUrl ++ "/"

/-- Python s.split(sep) for a one-character separator: the list of (possibly
empty) segments between occurrences of the separator; never the empty list. -/
def splitOnChar (sep : Char) : List Char → List (List Char)
  | [] => [[]]
  | c :: rest =>
    match splitOnChar sep rest with
    | [] => [[]]
    | h :: t => if c = sep then [] :: h :: t else (c :: h) :: t

/-- extract_file_extension from plugin_helper.py, taking the already-parsed
URL path component (u.path after urlparse(url)): split the whole path on dots
and return the final segment; raise when the path holds no dot at all. -/
def extract_file_extension (urlPath : String) : Except PyExc String :=
  let url_arr := splitOnChar '.' urlPath.data
  if 2 ≤ url_arr.length then
    Except.ok (String.mk (url_arr.getLastD []))
  else
    Except.error (PyExc.generic ("Could not determine compression type of: " ++ urlPath))

/-- Python substring containment over character lists: needle in hay. -/
def listContainsSub : List Char → List Char → Bool
  | [], needle => needle.isEmpty
  | c :: rest, needle => needle.isPrefixOf (c :: rest) || listContainsSub rest needle

/-- Python needle in hay for strings. -/
def strIn (needle hay : String) : Bool := listContainsSub hay.data needle.data

/-- the dir_names filter in handle_download_and_extraction: keep listing
entries in which neither ".git" nor "__MACOSX" occurs as a substring. -/
def filterJunk (unzippedDirs : List String) : List String :=
  unzippedDirs.filter (fun d => !(strIn ".git" d) && !(strIn "__MACOSX" d))

/-- The byte-by-byte loop of execute_cmd: buf accumulates the current line and
cLast is the previously read byte. A lone carriage return followed by a
different byte flushes the pending line first; a newline is appended and then
flushes. Bytes still in buf when the stream ends are never flushed. The
stream is modelled per byte as characters (exact for ASCII output). -/
def lineSplitAux : List Char → List Char → Option Char → List String
  | [], _, _ => []
  | c :: rest, buf, cLast =>
    let pre : List String :=
      if cLast = some '\r' ∧ buf ≠ [] ∧ c ≠ '\n' then [String.mk buf] else []
    let buf1 : List Char :=
      if cLast = some '\r' ∧ buf ≠ [] ∧ c ≠ '\n' then [c] else buf ++ [c]
    if c = '\n' then
      pre ++ (String.mk buf1 :: lineSplitAux rest [] (some c))
    else
      pre ++ lineSplitAux rest buf1 (some c)

/-- Lines yielded by the splitting loop of execute_cmd for a whole merged
output stream, starting from an empty buffer. -/
def lineSplit (stream : List Char) : List String := lineSplitAux stream [] none

/-- The echo line yielded first by execute_cmd: a dollar sign and the
space-joined command. -/
def echoLine (cmd : List String) : String := "$ " ++ String.intercalate " " cmd ++ "\n"

/-- execute_cmd: yields the echo line, then the lines split on newline or
lone carriage return; after the stream ends, waits on the process and raises
CalledProcessError when the exit code is non-zero. The result pairs the
yielded lines with the optional final error. -/
def execute_cmd (cmd : List String) (stream : List Char) (exitCode : Int) :
    List String × Option PyExc :=
  (echoLine cmd :: lineSplit stream,
   if exitCode = 0 then none else some (PyExc.calledProcessError exitCode cmd))

/-- Outcomes injected into one pipeline run: each stage either succeeds (none)
or raises an exception (some e); listing is what os.listdir reports in the
staging directory after the push. originExists is the os.path.exists check on
the local origin repo. -/
structure StageOutcomes where
  originExists : Bool
  initRepo : Option PyExc
  cloneRepo : Option PyExc
  download : Option PyExc
  unarchive : Option PyExc
  removeArchive : Option PyExc
  pushRepo : Option PyExc
  listing : List String
  deriving DecidableEq, Repr

/-- Run one injectable stage: success or raise. -/
def stageResult (outcome : Option PyExc) : Except PyExc Unit :=
  match outcome with
  | none => Except.ok ()
  | some e => Except.error e

/-- The try-block body of handle_download_and_extraction, stage by stage in
source order: optional origin init, clone, download, unarchive, archive
removal, push, then directory resolution, where reading dir_names[0] from an
empty filtered listing raises IndexError. On success the value is the
filtered dir_names list. -/
def pipelineBody (o : StageOutcomes) : Except PyExc (List String) := do
  if !o.originExists then stageResult o.initRepo
  stageResult o.cloneRepo
  stageResult o.download
  stageResult o.unarchive
  stageResult o.removeArchive
  stageResult o.pushRepo
  let dirNames := filterJunk o.listing
  match dirNames with
  | [] => throw PyExc.indexError
  | _ :: _ => return dirNames

/-- Python try/except/finally around the pipeline body: the except clause
wraps any exception ex as ValueError(ex) and re-raises; the finally clause
removes the temporary download directory on every path. The Bool records
whether the staging directory still exists when control leaves. -/
def tryExceptFinally (body : Except PyExc (List String)) :
    Except PyExc (List String) × Bool :=
  match body with
  | Except.ok v => (Except.ok v, false)
  | Except.error e => (Except.error (PyExc.valueError e), false)

/-- HandleFilesHelper.handle_download_and_extraction over injectable stage
outcomes: run the body under try/except/finally. -/
def handle_download_and_extraction (o : StageOutcomes) :
    Except PyExc (List String) × Bool :=
  tryExceptFinally (pipelineBody o)

/-- HandleFilesHelper.handle_files_helper: drain the inner generator, then
build the dict of source_dir_name = dir_names[0] and the local origin path. -/
def handle_files_helper (o : StageOutcomes) (localOriginRepoPath : String) :
    Except PyExc (String × String) × Bool :=
  match handle_download_and_extraction o with
  | (Except.ok dirNames, tmp) =>
    (match dirNames with
     | [] => Except.error PyExc.indexError
     | d :: _ => Except.ok (d, localOriginRepoPath), tmp)
  | (Except.error e, tmp) => (Except.error e, tmp)

/-- get_confirm_token from googledrive_downloader.py: scan the session
cookies in order and return the value of the first whose name starts with
download_warning, or none. -/
def get_confirm_token (cookies : List (String × String)) : Option String :=
  match cookies.find? (fun kv => ("download_warning".data).isPrefixOf kv.1.data) with
  | some kv => some kv.2
  | none => none

/-- A streamed HTTP response body as the chunk list produced by
response.iter_content(chunk_size=1024), each chunk a byte list. -/
structure HttpResponse where
  chunks : List (List Nat)
  deriving Repr

/-- The chunked file-write loop shared by both fetch strategies: append every
truthy (non-empty) chunk to the destination file. -/
def writtenBytes (r : HttpResponse) : List Nat :=
  (r.chunks.filter (fun ch => !ch.isEmpty)).flatten

/-- Environment of one Google Drive fetch: the cookies set by the first GET,
the first response, and the response the server would return for a follow-up
GET carrying a given confirm token. -/
structure GoogleFetchEnv where
  firstCookies : List (String × String)
  firstResponse : HttpResponse
  secondResponse : String → HttpResponse

/-- download_archive_for_google: GET with params id=fileId; when a
download_warning cookie is present in the session, reissue the GET with
confirm=token added and stream that second response to the destination file,
otherwise stream the first response. The result pairs the query parameters of
the GET whose body is saved with the bytes written to temp_download_file. -/
def download_archive_for_google (fileId : String) (env : GoogleFetchEnv) :
    List (String × String) × List Nat :=
  match get_confirm_token env.firstCookies with
  | some token =>
    ([("id", fileId), ("confirm", token)], writtenBytes (env.secondResponse token))
  | none => ([("id", fileId)], writtenBytes env.firstResponse)

/-- Python str.strip family: drop characters satisfying p from both ends. -/
def pyStrip (p : Char → Bool) (cs : List Char) : List Char :=
  ((cs.dropWhile p).reverse.dropWhile p).reverse

/-- Capture group of the regex pattern filename\*?=([^;]+) at a match
position: the non-empty run of characters before the next semicolon. -/
def captureValue (cs : List Char) : Option (List Char) :=
  let cap := cs.takeWhile (fun c => c != ';')
  if cap.isEmpty then none else some cap

/-- re.findall applied to that pattern, keeping the leftmost match: scan the
positions left to right; at each one try filename*= then filename= as a
literal prefix and capture up to the next semicolon. -/
def findFilenameValue : List Char → Option (List Char)
  | [] => none
  | c :: rest =>
    match
      (if ("filename*=".data).isPrefixOf (c :: rest) then
        captureValue ((c :: rest).drop 10)
      else if ("filename=".data).isPrefixOf (c :: rest) then
        captureValue ((c :: rest).drop 9)
      else none)
    with
    | some cap => some cap
    | none => findFilenameValue rest

/-- determine_file_extension_from_response: when a truthy content-disposition
header is present, take the first filename capture (IndexError when findall
found nothing), strip whitespace then double quotes, split the file name on
dots and take index 1 (IndexError when there is no index 1); a falsy or
absent header leaves ext as None and raises the could-not-determine
Exception. -/
def determine_file_extension_from_response (contentDisposition : Option String) :
    Except PyExc String :=
  match contentDisposition with
  | some s =>
    if s.isEmpty then
      Except.error (PyExc.generic ("Could not determine compression type of: " ++ s))
    else
      match findFilenameValue s.data with
      | none => Except.error PyExc.indexError
      | some cap =>
        let fileName := pyStrip (fun c => c.isWhitespace) cap
        let fileName2 := pyStrip (fun c => c == Char.ofNat 34) fileName
        match (splitOnChar '.' fileName2).get? 1 with
        | none => Except.error PyExc.indexError
        | some extSeg => Except.ok (String.mk extSeg)
  | none => Except.error (PyExc.generic "Could not determine compression type of: None")

/-- Extension selection in HandleFilesHelper.__init__: when other_kw_args
carries no extension key, extract it from the URL path, otherwise use the
supplied extension unchanged. -/
def helperExtension (overrideExt : Option String) (urlPath : String) :
    Except PyExc String :=
  match overrideExt with
  | none => extract_file_extension urlPath
  | some e => Except.ok e

/-- The Google Drive hook prepare_non_git_source_local_origin composed with
the helper: the hook always computes the extension from the response
content-disposition header and stores it into the extension slot of
other_kw_args, overwriting any extension already supplied there, before
HandleFilesHelper reads the slot; a detection failure propagates without
consulting the override or the URL. -/
def googleEffectiveExtension (overrideExt : Option String)
    (contentDisposition : Option String) (urlPath : String) : Except PyExc String :=
  match determine_file_extension_from_response contentDisposition with
  | Except.error e => Except.error e
  | Except.ok ext => helperExtension (some ext) urlPath

/-! Helper lemmas shared by the claim theorems. -/

theorem handle_files_helper_snd (o : StageOutcomes) (p : String) :
    (handle_files_helper o p).2 = (handle_download_and_extraction o).2 := by
  unfold handle_files_helper
  cases hr : handle_download_and_extraction o with
  | mk r tmp =>
    cases r with
    | ok v => cases v <;> rfl
    | error e => rfl

theorem handle_download_and_extraction_snd (o : StageOutcomes) :
    (handle_download_and_extraction o).2 = false := by
  unfold handle_download_and_extraction tryExceptFinally
  cases pipelineBody o <;> rfl

/-- C1: for every invocation of the pipeline entry point, whether the run
completes successfully or an exception is raised at any stage, the temporary
staging download directory no longer exists by the time control returns to
the caller or the exception propagates out, through either entry point. -/
theorem staging_dir_removed_on_every_path (o : StageOutcomes) (p : String) :
    (handle_download_and_extraction o).2 = false ∧ (handle_files_helper o p).2 = false := by
  refine ⟨handle_download_and_extraction_snd o, ?_⟩
  rw [handle_files_helper_snd]
  exact handle_download_and_extraction_snd o

/-- A run in which every stage succeeds and os.listdir reports only the .git
entry left by the clone: the unarchived payload contributed nothing. -/
def emptyArchiveOutcomes : StageOutcomes :=
  { originExists := true, initRepo := none, cloneRepo := none, download := none,
    unarchive := none, removeArchive := none, pushRepo := none, listing := [".git"] }

/-- C3: with every stage succeeding and the staging listing containing only
the .git entry, junk filtering leaves zero entries and the code indexes into
the empty list: the run ends in IndexError wrapped as ValueError, not in any
explicitly defined empty-archive outcome. -/
theorem empty_archive_indexes_empty_list :
    filterJunk emptyArchiveOutcomes.listing = [] ∧
    (handle_download_and_extraction emptyArchiveOutcomes).1
      = Except.error (PyExc.valueError PyExc.indexError) := by
  exact ⟨rfl, rfl⟩

/-- A run in which the clone stage raises CalledProcessError(128, git clone)
and the remaining stages are unreached. -/
def cloneFailOutcomes : StageOutcomes :=
  { originExists := true, initRepo := none,
    cloneRepo := some (PyExc.calledProcessError 128 ["git", "clone"]),
    download := none, unarchive := none, removeArchive := none,
    pushRepo := none, listing := ["proj"] }

/-- C4 counterexample: the clone stage raises a stage-local
CalledProcessError, and what leaves the orchestrator is that error wrapped in
ValueError, not the stage-local error unmodified. -/
theorem stage_error_not_propagated_unmodified :
    (handle_download_and_extraction cloneFailOutcomes).1
      = Except.error (PyExc.valueError (PyExc.calledProcessError 128 ["git", "clone"]))
    ∧ (handle_download_and_extraction cloneFailOutcomes).1
      ≠ Except.error (PyExc.calledProcessError 128 ["git", "clone"]) := by
  refine ⟨rfl, ?_⟩
  intro h
  rw [show (handle_download_and_extraction cloneFailOutcomes).1
      = Except.error (PyExc.valueError (PyExc.calledProcessError 128 ["git", "clone"])) from rfl] at h
  simp at h

/-- C4 amended: every exception raised by any stage of the pipeline body
leaves the orchestrator wrapped in a ValueError that preserves the original
exception as its cause - stage-local errors included, the wrapping is not
reserved to uncategorized failures - and staging cleanup has run by then. -/
theorem orchestrator_wraps_every_error (o : StageOutcomes) (e : PyExc)
    (h : pipelineBody o = Except.error e) :
    (handle_download_and_extraction o).1 = Except.error (PyExc.valueError e) ∧
    (handle_download_and_extraction o).2 = false := by
  unfold handle_download_and_extraction tryExceptFinally
  rw [h]
  exact ⟨rfl, rfl⟩

/-- Witness for C4 amended at the concrete failing-clone run. -/
theorem orchestrator_wraps_every_error_witness :
    (handle_download_and_extraction cloneFailOutcomes).1
      = Except.error (PyExc.valueError (PyExc.calledProcessError 128 ["git", "clone"])) ∧
    (handle_download_and_extraction cloneFailOutcomes).2 = false :=
  orchestrator_wraps_every_error cloneFailOutcomes
    (PyExc.calledProcessError 128 ["git", "clone"]) rfl

/-- C5 counterexample: on the stream a CR LF b CR c LF the splitter yields
each line with its terminator bytes attached, so the yielded strings are not
the bare a, b, c. -/
theorem lineSplit_keeps_terminators :
    lineSplit ("a\r\nb\rc\n".data) ≠ ["a", "b", "c"] := by decide

/-- Drop trailing carriage-return and newline characters from a line. -/
def stripLineEnds (s : String) : String :=
  String.mk ((s.data.reverse.dropWhile (fun c => c == '\n' || c == '\r')).reverse)

/-- C5 amended: the stream a CR LF b CR c LF yields exactly three lines at
the claimed boundaries - a lone carriage return is a boundary and a
carriage-return newline pair is one boundary, not two - each line carrying
its terminator, and stripping terminators leaves a, b, c. -/
theorem lineSplit_crlf_boundaries :
    lineSplit ("a\r\nb\rc\n".data) = ["a\r\n", "b\r", "c\n"] ∧
    (lineSplit ("a\r\nb\rc\n".data)).map stripLineEnds = ["a", "b", "c"] := by
  exact ⟨by decide, by decide⟩

/-- A fully successful run whose staging listing holds the extracted project
next to the version-control and macOS junk entries. -/
def junkListingOutcomes : StageOutcomes :=
  { originExists := true, initRepo := none, cloneRepo := none, download := none,
    unarchive := none, removeArchive := none, pushRepo := none,
    listing := ["MyProject", ".git", "__MACOSX"] }

/-- C8: with the staging listing MyProject, .git, __MACOSX after the push,
junk filtering removes the version-control and platform-junk entries and the
pipeline result reports MyProject as the extracted directory name. -/
theorem junk_filtering_resolves_myproject :
    filterJunk ["MyProject", ".git", "__MACOSX"] = ["MyProject"] ∧
    (handle_files_helper junkListingOutcomes "/origin/path/").1
      = Except.ok ("MyProject", "/origin/path/") := by
  exact ⟨rfl, rfl⟩

/-- Unfolding equation for the splitter loop at a cons cell, exactly as the
definition reads. -/
theorem lineSplitAux_cons (c : Char) (rest buf : List Char) (cLast : Option Char) :
    lineSplitAux (c :: rest) buf cLast =
      (let pre : List String :=
        if cLast = some '\r' ∧ buf ≠ [] ∧ c ≠ '\n' then [String.mk buf] else []
       let buf1 : List Char :=
        if cLast = some '\r' ∧ buf ≠ [] ∧ c ≠ '\n' then [c] else buf ++ [c]
       if c = '\n' then
         pre ++ (String.mk buf1 :: lineSplitAux rest [] (some c))
       else
         pre ++ lineSplitAux rest buf1 (some c)) := rfl

theorem lineSplitAux_boundary_free (cs : List Char) :
    ∀ (buf : List Char) (cLast : Option Char),
      (∀ c ∈ cs, c ≠ '\n' ∧ c ≠ '\r') →
      lineSplitAux cs buf cLast =
        (if cLast = some '\r' ∧ buf ≠ [] ∧ cs ≠ [] then [String.mk buf] else []) := by
  induction cs with
  | nil =>
    intro buf cLast _
    simp [lineSplitAux]
  | cons c rest ih =>
    intro buf cLast h
    obtain ⟨hcn, hcr⟩ := h c (by simp)
    have hrest : ∀ x ∈ rest, x ≠ '\n' ∧ x ≠ '\r' := fun x hx => h x (by simp [hx])
    by_cases hA : cLast = some '\r'
    · by_cases hB : buf = []
      · subst hB
        simp [lineSplitAux_cons, hA, hcn, hcr, ih [c] (some c) hrest]
      · simp [lineSplitAux_cons, hA, hB, hcn, hcr, ih [c] (some c) hrest]
    · simp [lineSplitAux_cons, hA, hcn, hcr, ih (buf ++ [c]) (some c) hrest]

/-- C9: bytes after the last line boundary are never yielded: a boundary-free
suffix contributes none of its own bytes to the output (at most flushing the
line pending before it, when the preceding byte was a lone carriage return),
and a process printing a wholly unterminated stream such as abc with exit
code zero yields only the echoed command line. -/
theorem trailing_bytes_never_yielded (cmd : List String) (tail : List Char)
    (htail : ∀ c ∈ tail, c ≠ '\n' ∧ c ≠ '\r') :
    (∀ buf cLast, lineSplitAux tail buf cLast =
        (if cLast = some '\r' ∧ buf ≠ [] ∧ tail ≠ [] then [String.mk buf] else [])) ∧
    execute_cmd cmd tail 0 = ([echoLine cmd], none) := by
  refine ⟨fun buf cLast => lineSplitAux_boundary_free tail buf cLast htail, ?_⟩
  unfold execute_cmd lineSplit
  rw [lineSplitAux_boundary_free tail [] none htail]
  simp

/-- Witness for C9 at the stream abc with no trailing newline. -/
theorem trailing_bytes_never_yielded_witness :
    execute_cmd ["git", "add", "."] ("abc".data) 0
      = ([echoLine ["git", "add", "."]], none) :=
  (trailing_bytes_never_yielded ["git", "add", "."] ("abc".data) (by decide)).2

/-- Unfolding equation for the splitter at a cons cell. -/
theorem splitOnChar_cons (sep c : Char) (rest : List Char) :
    splitOnChar sep (c :: rest) =
      (match splitOnChar sep rest with
       | [] => [[]]
       | h :: t => if c = sep then [] :: h :: t else (c :: h) :: t) := rfl

theorem splitOnChar_ne_nil (sep : Char) (cs : List Char) : splitOnChar sep cs ≠ [] := by
  cases cs with
  | nil => simp [splitOnChar]
  | cons c rest =>
    rw [splitOnChar_cons]
    cases h : splitOnChar sep rest with
    | nil => simp
    | cons hh tt =>
      show ¬(if c = sep then [] :: hh :: tt else (c :: hh) :: tt) = []
      by_cases hc : c = sep <;> simp [hc]

theorem splitOnChar_two_le_iff (sep : Char) (cs : List Char) :
    2 ≤ (splitOnChar sep cs).length ↔ sep ∈ cs := by
  induction cs with
  | nil => simp [splitOnChar]
  | cons c rest ih =>
    rw [splitOnChar_cons]
    cases h : splitOnChar sep rest with
    | nil => exact absurd h (splitOnChar_ne_nil sep rest)
    | cons hh tt =>
      rw [h] at ih
      show 2 ≤ (if c = sep then [] :: hh :: tt else (c :: hh) :: tt).length ↔ sep ∈ c :: rest
      by_cases hc : c = sep
      · subst hc
        simp only [if_pos rfl, List.length_cons]
        simp [Nat.le_add_left]
      · rw [if_neg hc]
        simp only [List.length_cons] at ih ⊢
        rw [List.mem_cons]
        constructor
        · intro hle
          exact Or.inr (ih.mp hle)
        · intro hmem
          rcases hmem with heq | hmem
          · exact absurd heq.symm hc
          · exact ih.mpr hmem

/-- C10: URL-suffix inference splits the entire parsed URL path on dots and
returns everything after the last dot, even when that dot lies in a directory
segment rather than the final file name - the path /v1.0/archive yields
0/archive - and the function fails exactly when the path holds no dot. -/
theorem extract_file_extension_last_dot :
    extract_file_extension "/v1.0/archive" = Except.ok "0/archive" ∧
    ∀ p : String, (∃ e, extract_file_extension p = Except.error e) ↔ '.' ∉ p.data := by
  refine ⟨rfl, fun p => ?_⟩
  unfold extract_file_extension
  by_cases h : 2 ≤ (splitOnChar '.' p.data).length
  · have hmem := (splitOnChar_two_le_iff '.' p.data).mp h
    simp [if_pos h, hmem]
  · have hnot : '.' ∉ p.data := fun hm => h ((splitOnChar_two_le_iff '.' p.data).mpr hm)
    simp [if_neg h, hnot]

/-- C7: whenever the session cookies after the first GET contain a cookie
whose name begins with download_warning, the strategy reissues the GET with
confirm set to that token as an additional query parameter and the bytes
saved to the destination file are exactly the second response's body; with no
such cookie the first response's body is saved. Token presence is exactly the
existence of a cookie with the fixed name prefix. -/
theorem google_confirm_token_handshake (fileId : String) (env : GoogleFetchEnv) :
    (∀ t, get_confirm_token env.firstCookies = some t →
      download_archive_for_google fileId env
        = ([("id", fileId), ("confirm", t)], writtenBytes (env.secondResponse t))) ∧
    (get_confirm_token env.firstCookies = none →
      download_archive_for_google fileId env
        = ([("id", fileId)], writtenBytes env.firstResponse)) ∧
    ((get_confirm_token env.firstCookies).isSome ↔
      ∃ kv ∈ env.firstCookies, ("download_warning".data).isPrefixOf kv.1.data = true) := by
  refine ⟨?_, ?_, ?_⟩
  · intro t ht
    unfold download_archive_for_google
    rw [ht]
  · intro hn
    unfold download_archive_for_google
    rw [hn]
  · unfold get_confirm_token
    cases hf : env.firstCookies.find?
        (fun kv => ("download_warning".data).isPrefixOf kv.1.data) with
    | none =>
      simp only [Option.isSome_none, Bool.false_eq_true, false_iff]
      intro hex
      obtain ⟨kv, hmem, hpre⟩ := hex
      have := List.find?_eq_none.mp hf kv hmem
      simp [hpre] at this
    | some kv =>
      simp only [Option.isSome_some, true_iff]
      refine ⟨kv, List.mem_of_find?_eq_some hf, ?_⟩
      have hp := List.find?_some hf
      simpa using hp

/-- The concrete environment of the C7 witness: the first GET sets a
download_warning cookie, the two responses have distinct bodies. -/
def googleEnvWitness : GoogleFetchEnv :=
  { firstCookies := [("download_warning_abc", "TOK")],
    firstResponse := { chunks := [[1, 2]] },
    secondResponse := fun _ => { chunks := [[3, 4], []] } }

/-- Witness for C7: the saved file is the second response's body, fetched
with the confirm token in the query. -/
theorem google_confirm_token_handshake_witness :
    download_archive_for_google "fileid" googleEnvWitness
      = ([("id", "fileid"), ("confirm", "TOK")], [3, 4]) := by
  have h := (google_confirm_token_handshake "fileid" googleEnvWitness).1 "TOK" (by decide)
  rw [h]
  rfl

/-- C6 counterexample: a Google Drive invocation carrying the explicit
extension override zip still resolves to tgz taken from the
content-disposition header, so the override does not win there. -/
theorem override_loses_to_content_disposition :
    googleEffectiveExtension (some "zip") (some "filename=x.tgz") "/u/f.zip"
      = Except.ok "tgz" ∧ ("tgz" : String) ≠ "zip" :=
  ⟨rfl, by decide⟩

/-- C6 amended: in the helper used by the generic-web and Dropbox paths an
explicit extension override wins over URL-suffix inference, a missing
override falls back to the URL path, and a dotless URL path with no override
raises the could-not-determine error; in the Google Drive path the
content-disposition extension is always used, overwriting any explicit
override, and a detection failure propagates with no fallback to the
override or the URL suffix. -/
theorem extension_precedence_amended :
    (∀ (e url : String), helperExtension (some e) url = Except.ok e) ∧
    (∀ url : String, helperExtension none url = extract_file_extension url) ∧
    (∀ (ov : Option String) (cd : Option String) (url ext : String),
      determine_file_extension_from_response cd = Except.ok ext →
      googleEffectiveExtension ov cd url = Except.ok ext) ∧
    (∀ (ov : Option String) (cd : Option String) (url : String) (e : PyExc),
      determine_file_extension_from_response cd = Except.error e →
      googleEffectiveExtension ov cd url = Except.error e) ∧
    (∀ url : String, '.' ∉ url.data →
      helperExtension none url
        = Except.error (PyExc.generic ("Could not determine compression type of: " ++ url))) := by
  refine ⟨fun e url => rfl, fun url => rfl, ?_, ?_, ?_⟩
  · intro ov cd url ext h
    unfold googleEffectiveExtension
    rw [h]
    rfl
  · intro ov cd url e h
    unfold googleEffectiveExtension
    rw [h]
  · intro url h
    have h2 : ¬ 2 ≤ (splitOnChar '.' url.data).length :=
      fun hle => h ((splitOnChar_two_le_iff '.' url.data).mp hle)
    unfold helperExtension extract_file_extension
    simp [if_neg h2]

/-- Witness for C6 amended: in the Google Drive path the header-derived zip
extension is the effective one even with the explicit override tar present. -/
theorem extension_precedence_amended_witness :
    googleEffectiveExtension (some "tar") (some "filename=a.zip") "/course"
      = Except.ok "zip" :=
  extension_precedence_amended.2.2.1 (some "tar") (some "filename=a.zip") "/course" "zip" rfl

/-- C2 counterexample: the two distinct URLs a.b and ab agree after
punctuation stripping and resolve to the same local origin path, refuting
collision freedom for distinct (providerName, url) identities. -/
theorem distinct_urls_same_origin_path :
    localOriginRepo "/home/jovyan/" "web" "a.b" = localOriginRepo "/home/jovyan/" "web" "ab"
      ∧ ("a.b" : String) ≠ "ab" :=
  ⟨by decide, by decide⟩

theorem stripPunctuation_no_slash (u : String) : '/' ∉ (stripPunctuation u).data := by
  intro hm
  have hmf : '/' ∈ u.data.filter (fun c => !(pythonPunctuation.contains c)) := hm
  rw [List.mem_filter] at hmf
  have hc := hmf.2
  have hpp : pythonPunctuation.contains '/' = true := by decide
  rw [hpp] at hc
  simp at hc

/-- Cancellation around a separator: when neither prefix holds the separator,
a list of the shape x ++ sep :: xs determines x and xs. -/
theorem append_sep_cancel :
    ∀ (x y xs ys : List Char), '/' ∉ x → '/' ∉ y →
      x ++ '/' :: xs = y ++ '/' :: ys → x = y ∧ xs = ys := by
  intro x
  induction x with
  | nil =>
    intro y xs ys _ hy h
    cases y with
    | nil =>
      simp only [List.nil_append, List.cons.injEq, true_and] at h
      exact ⟨rfl, h⟩
    | cons d y2 =>
      simp only [List.nil_append, List.cons_append, List.cons.injEq] at h
      exact absurd (h.1 ▸ List.mem_cons_self d y2) hy
  | cons c x2 ih =>
    intro y xs ys hx hy h
    cases y with
    | nil =>
      simp only [List.nil_append, List.cons_append, List.cons.injEq] at h
      exact absurd (h.1.symm ▸ List.mem_cons_self c x2) hx
    | cons d y2 =>
      simp only [List.cons_append, List.cons.injEq] at h
      have hx2 : '/' ∉ x2 := fun hm => hx (List.mem_cons_of_mem c hm)
      have hy2 : '/' ∉ y2 := fun hm => hy (List.mem_cons_of_mem d hm)
      obtain ⟨hxy, hxs⟩ := ih y2 xs ys hx2 hy2 h.2
      exact ⟨by rw [h.1, hxy], hxs⟩

/-- C2 amended: the local origin path is a deterministic pure function of the
parent directory, provider name and punctuation-stripped URL, and for a fixed
parent two invocations resolve to the same path exactly when the provider
names are equal and the URLs agree after punctuation stripping - so repeated
requests to one source reuse one path, while distinct URLs differing only in
punctuation collide. -/
theorem localOriginRepo_identity (parent c1 c2 u1 u2 : String) :
    localOriginRepo parent c1 u1 = localOriginRepo parent c2 u2 ↔
      c1 = c2 ∧ stripPunctuation u1 = stripPunctuation u2 := by
  constructor
  · intro h
    have hd := congrArg String.data h
    have hslash : ("/" : String).data = ['/'] := rfl
    simp only [localOriginRepo, String.data_append, hslash, List.append_assoc,
      List.singleton_append] at hd
    have hd2 := List.append_cancel_left hd
    have hd3 := List.append_cancel_left hd2
    have hr := congrArg List.reverse hd3
    simp only [List.reverse_append, List.reverse_cons, List.cons_append,
      List.append_assoc, List.singleton_append, List.reverse_nil, List.nil_append] at hr
    simp only [List.cons.injEq, true_and] at hr
    have hs1 : '/' ∉ (stripPunctuation u1).data.reverse := by
      simpa [List.mem_reverse] using stripPunctuation_no_slash u1
    have hs2 : '/' ∉ (stripPunctuation u2).data.reverse := by
      simpa [List.mem_reverse] using stripPunctuation_no_slash u2
    obtain ⟨hseq, hceq⟩ := append_sep_cancel _ _ _ _ hs1 hs2 hr
    refine ⟨String.ext (List.reverse_injective hceq), String.ext (List.reverse_injective hseq)⟩
  · rintro ⟨rfl, hs⟩
    unfold localOriginRepo
    rw [hs]

/-- Witness for C2 amended: stripping punctuation from a URL with scheme and
query noise lands on the same path as the already-stripped URL. -/
theorem localOriginRepo_identity_witness :
    localOriginRepo "/home/jovyan/" "web" "http://x.y/a?b=1"
      = localOriginRepo "/home/jovyan/" "web" "httpxyab1" :=
  (localOriginRepo_identity "/home/jovyan/" "web" "web" "http://x.y/a?b=1" "httpxyab1").mpr
    ⟨rfl, by decide⟩

end NbgitpullerPlugins
